import Mathlib

/-!
Verification of the goenv library (millken/goenv).

Two design variants are embedded:
* `goenv.*`        — src/env.go: accessors read the host environment directly,
                     trimming values with `fastTrim`.
* `goenv.store.*`  — the Store-backed variant (src/unnamed/part_002): a
                     process-wide map guarded by a reader/writer lock.

The host environment is modelled as a partial map `String → Option String`
(`os.LookupEnv`); a key mapped to `some v` is present (listed by
`os.Environ`), `none` means unset.
-/

namespace goenv

/-- Model of the host process environment (`os.LookupEnv` view). -/
def HostEnv : Type := String → Option String

/-- Core of `fastTrim` (src/env.go lines 224-244) on character lists:
the source scans indices from both ends removing ASCII spaces (0x20) only;
extensionally this drops the leading and trailing run of spaces. -/
def fastTrimList (l : List Char) : List Char :=
  ((l.dropWhile (· == ' ')).reverse.dropWhile (· == ' ')).reverse

/-- `fastTrim` from src/env.go: removes leading and trailing ASCII spaces. -/
def fastTrim (s : String) : String :=
  ⟨fastTrimList s.toList⟩

/-- `Get` from src/env.go lines 27-32: if `os.LookupEnv` reports the key
present, return the trimmed value, otherwise the default. -/
def Get (env : HostEnv) (key defaultValue : String) : String :=
  match env key with
  | some v => fastTrim v
  | none => defaultValue

/-- `String` accessor from src/env.go (delegates to `Get`); named
`StringAcc` because `String` is taken in Lean. -/
def StringAcc (env : HostEnv) (key defaultValue : String) : String :=
  Get env key defaultValue

/-- `IsSet` from src/env.go lines 21-23: `Get(key, "") != ""`. -/
def IsSet (env : HostEnv) (key : String) : Bool :=
  Get env key "" != ""

/-- The six-literal truthy test from `Bool` in src/env.go lines 40-51. -/
def truthy (val : String) : Bool :=
  val == "true" || val == "1" || val == "t" || val == "T" ||
    val == "TRUE" || val == "True"

/-- `Bool` accessor from src/env.go lines 40-51; named `BoolAcc` because
`Bool` is taken in Lean. -/
def BoolAcc (env : HostEnv) (key : String) (defaultValue : Bool) : Bool :=
  if truthy (Get env key "") then true else defaultValue

example : fastTrim " foo " = "foo" := by decide
example : fastTrim "" = "" := by decide
example : fastTrim "foo" = "foo" := by decide

/-! ## Integer parsing (strconv.ParseInt / strconv.ParseUint, base 10)

The generic `Int[T]` accessor of src/env.go lines 55-110 dispatches on the
width and signedness of `T` and calls `strconv.Atoi`, `strconv.ParseInt`
or `strconv.ParseUint` with base 10 and the matching bit size
(`Atoi` is extensionally `ParseInt(s, 10, 64)` on a 64-bit platform, and
the `uint` case's bit size 0 also means 64).  The parsers are embedded
here faithfully: a malformed string yields value 0 and a syntax error; an
out-of-range string yields the clamped boundary value and a range error. -/

/-- Error kinds of Go's `strconv.NumError`. -/
inductive NumErr where
  | malformed : NumErr
  | outOfRange : NumErr
deriving DecidableEq, Repr

/-- Numeric value of a digit string (most significant first). -/
def digitsVal (l : List Char) : Nat :=
  l.foldl (fun n c => n * 10 + (c.toNat - '0'.toNat)) 0

/-- `strconv.ParseUint(s, 10, bitSize)`: rejects empty strings, signs and
non-digits (value 0, syntax error); clamps values above `2^bitSize - 1`
to the maximum (range error). -/
def goParseUint (s : List Char) (bitSize : Nat) : Nat × Option NumErr :=
  if s.isEmpty then (0, some .malformed)
  else if s.all Char.isDigit then
    let n := digitsVal s
    if n > 2 ^ bitSize - 1 then (2 ^ bitSize - 1, some .outOfRange)
    else (n, none)
  else (0, some .malformed)

/-- `strconv.ParseInt(s, 10, bitSize)`: strips one optional sign, parses
the magnitude with `goParseUint`, then checks the signed range
`[-2^(bitSize-1), 2^(bitSize-1) - 1]`, clamping on overflow. -/
def goParseInt (s : List Char) (bitSize : Nat) : Int × Option NumErr :=
  match s with
  | [] => (0, some .malformed)
  | c :: rest =>
    let neg : Bool := c == '-'
    let digits := if c == '+' || c == '-' then rest else c :: rest
    let p := goParseUint digits bitSize
    match p.2 with
    | some .malformed => (0, some .malformed)
    | _ =>
      if neg = false ∧ 2 ^ (bitSize - 1) ≤ p.1 then
        (((2 ^ (bitSize - 1) - 1 : Nat) : Int), some .outOfRange)
      else if neg = true ∧ 2 ^ (bitSize - 1) < p.1 then
        (-((2 ^ (bitSize - 1) : Nat) : Int), some .outOfRange)
      else (if neg then -(p.1 : Int) else (p.1 : Int), none)

/-- The width/signedness a Go integer type instantiates `Int[T]` at
(src/env.go type switch; `int` and `uint` are 64-bit here). -/
structure IntKind where
  bits : Nat
  signed : Bool
deriving DecidableEq, Repr

/-- The kinds that occur in the type switch of src/env.go. -/
def goIntKinds : List IntKind :=
  [⟨64, true⟩, ⟨8, true⟩, ⟨16, true⟩, ⟨32, true⟩,
   ⟨64, false⟩, ⟨8, false⟩, ⟨16, false⟩, ⟨32, false⟩]

/-- The generic `Int[T]` accessor of src/env.go lines 55-110, one branch
of the type switch selected by `k`.  Results are read in `Int` (unsigned
results are the nonnegative parsed value). -/
def intAccessor (k : IntKind) (env : HostEnv) (key : String)
    (defaultValue : Int) : Int × Option NumErr :=
  let v := Get env key ""
  if v = "" then (defaultValue, none)
  else if k.signed then goParseInt v.toList k.bits
  else
    let p := goParseUint v.toList k.bits
    ((p.1 : Int), p.2)

/-- `Duration` from src/env.go lines 115-121, parameterised by the
behaviour of `time.ParseDuration` (an external stdlib collaborator):
`pd v` is the (value, error) pair `time.ParseDuration(v)` returns. -/
def DurationAcc (pd : String → Int × Option String) (env : HostEnv)
    (key : String) (defaultValue : Int) : Int × Option String :=
  let v := Get env key ""
  if v = "" then (defaultValue, none)
  else pd v

example : goParseInt "128".toList 8 = (127, some .outOfRange) := by decide
example : goParseInt "-128".toList 8 = (-128, none) := by decide
example : goParseInt "-129".toList 8 = (-128, some .outOfRange) := by decide
example : goParseInt "abc".toList 8 = (0, some .malformed) := by decide
example : goParseUint "-1".toList 8 = (0, some .malformed) := by decide
example : goParseUint "300".toList 8 = (255, some .outOfRange) := by decide

/-! ## Loader (src/env.go lines 127-137, 175-202)

`readFile` (open + read + `parseBytes`) is modelled as an external input
`FileSys`: for each filename either the parsed key/value pairs or the
error `os.Open`/`io.Copy`/`parseBytes` produced.  A parsed file is a Go
map, so its key list has no duplicates; where that matters it appears as
a hypothesis. -/

/-- Outcome of `readFile` per filename: parsed pairs or an error text. -/
def FileSys : Type := String → Except String (List (String × String))

/-- `os.Setenv` on the modelled host environment. -/
def setEnv (env : HostEnv) (k v : String) : HostEnv :=
  fun x => if x = k then some v else env x

/-- The merge loop of `loadFile` (src/env.go lines 188-199): `currentEnv`
is the key set of `env` snapshotted before the loop, so the presence test
always consults the original `env`. -/
def loadMerge (env : HostEnv) (pairs : List (String × String))
    (overload : Bool) : HostEnv :=
  pairs.foldl
    (fun acc p => if (env p.1).isNone || overload then setEnv acc p.1 p.2 else acc)
    env

/-- `loadFile` (src/env.go lines 182-202): on a read/parse failure the
wrapped error is returned and the environment is untouched; otherwise the
parsed pairs are merged. -/
def loadFile (fs : FileSys) (filename : String) (overload : Bool)
    (env : HostEnv) : HostEnv × Option String :=
  match fs filename with
  | .error e => (env, some ("failed to read file " ++ filename ++ ": " ++ e))
  | .ok envMap => (loadMerge env envMap overload, none)

/-- `filenamesOrDefault` (src/env.go lines 175-180). -/
def filenamesOrDefault (filenames : List String) : List String :=
  if filenames = [] then [".env"] else filenames

/-- The loop of `Load` (src/env.go lines 130-136): files in order,
returning early on the first error. -/
def loadList (fs : FileSys) : List String → HostEnv → HostEnv × Option String
  | [], env => (env, none)
  | f :: rest, env =>
    match loadFile fs f false env with
    | (env', none) => loadList fs rest env'
    | (env', some e) => (env', some e)

/-- `Load` (src/env.go lines 127-137). -/
def Load (fs : FileSys) (filenames : List String) (env : HostEnv) :
    HostEnv × Option String :=
  loadList fs (filenamesOrDefault filenames) env

/-- The environment after successfully merging a prefix of files
(used to state that `Load` keeps earlier merges on a later failure). -/
def applyFiles (fs : FileSys) (files : List String) (env : HostEnv) : HostEnv :=
  files.foldl
    (fun e f => match fs f with
      | .ok m => loadMerge e m false
      | .error _ => e)
    env

/-! ## Marshaler (src/env.go lines 141-174)

`Marshal` snapshots `os.Environ()` into a map of trimmed values, renders
one line per key and sorts the rendered lines.  The snapshot is modelled
as the key/value pair list `os.Environ` enumerates (a real environment
has no duplicate keys); iteration order of the Go map is arbitrary, which
claim C8 addresses.  `sort.Strings` is modelled by insertion sort under
the lexicographic order: any correct sort of the same relation is
extensionally that unique sorted permutation. -/

/-- `strconv.Atoi` (src/env.go line 152): `ParseInt(s, 10, 0)` on a
64-bit platform. -/
def atoi (s : String) : Int × Option NumErr :=
  goParseInt s.toList 64

/-- `doubleQuoteSpecialChars` (src/env.go line 160), in source order. -/
def doubleQuoteSpecialChars : List Char :=
  ['\\', '\n', '\r', '"', '!', '$', '`']

/-- `strings.Replace(line, pat, repl, -1)` for a one-character pattern
(every pattern in `doubleQuoteEscape` is one character). -/
def replaceAll (p : Char) (r : List Char) : List Char → List Char
  | [] => []
  | c :: cs => if c = p then r ++ replaceAll p r cs else c :: replaceAll p r cs

/-- The replacement text `doubleQuoteEscape` uses for special char `c`
(src/env.go lines 163-169): `"\\" + c`, except `\n` and `\r` which become
the two-character texts `\n` and `\r`. -/
def escCharRepl (c : Char) : List Char :=
  if c = '\n' then ['\\', 'n']
  else if c = '\r' then ['\\', 'r']
  else ['\\', c]

/-- `doubleQuoteEscape` (src/env.go lines 162-173): sequential global
replacements, one per special character, in source order. -/
def doubleQuoteEscapeList (l : List Char) : List Char :=
  doubleQuoteSpecialChars.foldl (fun line c => replaceAll c (escCharRepl c) line) l

/-- `doubleQuoteEscape` on strings. -/
def doubleQuoteEscape (s : String) : String :=
  ⟨doubleQuoteEscapeList s.toList⟩

/-- One rendered line of `Marshal` (src/env.go lines 151-156): unquoted
integer form when `strconv.Atoi` succeeds, quoted escaped form otherwise. -/
def marshalLine (k v : String) : String :=
  match atoi v with
  | (d, none) => k ++ "=" ++ toString d
  | (_, some _) => k ++ "=\"" ++ doubleQuoteEscape v ++ "\""

/-- `Marshal` (src/env.go lines 141-158) as a function of the
`os.Environ()` snapshot. -/
def Marshal (environ : List (String × String)) : String :=
  String.intercalate "\n"
    (List.insertionSort (· ≤ ·)
      (environ.map fun p => marshalLine p.1 (fastTrim p.2)))

/-- Modelled from the spec: the escaping rule described as a single
per-character map — each special character is emitted with one leading
backslash (`\n`, `\r` as the letter forms) and is never re-escaped.
Claim C7 relates `doubleQuoteEscape` to this description. -/
def escapeSpecChar (c : Char) : List Char :=
  if c = '\\' then ['\\', '\\']
  else if c = '\n' then ['\\', 'n']
  else if c = '\r' then ['\\', 'r']
  else if c = '"' then ['\\', '"']
  else if c = '!' then ['\\', '!']
  else if c = '$' then ['\\', '$']
  else if c = '`' then ['\\', '`']
  else [c]

/-- Modelled from the spec: the whole-string escape as the concatenation
of per-character escapes. -/
def escapeSpec : List Char → List Char
  | [] => []
  | c :: cs => escapeSpecChar c ++ escapeSpec cs

example : doubleQuoteEscape "a\"b" = "a\\\"b" := by decide
example : doubleQuoteEscape "a\\b" = "a\\\\b" := by decide
example : marshalLine "A" "42" = "A=42" := by decide
example : marshalLine "A" "x" = "A=\"x\"" := by decide

/-! ## Store-backed variant (src/unnamed/part_002)

The package-level `env` map guarded by `mu`, a `sync.RWMutex`.  Values
are stored and returned verbatim (this variant never trims). -/

/-- The Store: the package-level `env` map of part_002. -/
def Store : Type := String → Option String

namespace store

/-- `env[k] = v` - one assignment into the Store map. -/
def setStore (st : Store) (k v : String) : Store :=
  fun x => if x = k then some v else st x

/-- The empty map `map[string]string{}`. -/
def emptyStore : Store := fun _ => none

/-- `Get` (part_002 lines 76-84): the stored value verbatim if the key is
in the map — even when that value is empty — else the default. -/
def Get (st : Store) (key value : String) : String :=
  match st key with
  | some v => v
  | none => value

/-- `MustGet` (part_002 lines 101-109). -/
def MustGet (st : Store) (key : String) : Except String String :=
  match st key with
  | some v => .ok v
  | none => .error ("could not find ENV var with " ++ key)

/-- `Bool` (part_002 lines 119-126): lower-cases the stored value and
compares with "true". -/
def BoolAcc (st : Store) (key : String) (value : Bool) : Bool :=
  match st key with
  | some v => v.toLower == "true"
  | none => value

/-- `Int` (part_002 lines 129-136): `strconv.Atoi`, ignoring the error. -/
def IntAcc (st : Store) (key : String) (value : Int) : Int :=
  match st key with
  | some v => (atoi v).1
  | none => value

/-- `Set` (part_002 lines 112-116): writes the Store only, not the host
environment. -/
def Set (st : Store) (key value : String) : Store :=
  setStore st key value

/-- `MustSet` (part_002 lines 90-99), parameterised by the outcome of the
external `os.Setenv(key, value)` call: on failure the error is returned
and the Store is untouched; only after a successful host write is the key
stored. -/
def MustSet (osSetenv : Except String Unit) (st : Store) (key value : String) :
    Store × Option String :=
  match osSetenv with
  | .error e => (st, some e)
  | .ok _ => (setStore st key value, none)

/-- The `loadSystemEnv` merge (part_002 lines 22-29): each `os.Environ`
pair written into the current map, in order. -/
def applyPairs (sys : List (String × String)) (st : Store) : Store :=
  sys.foldl (fun a p => setStore a p.1 p.2) st

/-! ### Lock-trace semantics

Each mutating function of part_002 is a straight-line sequence of atomic
actions on the shared `env` map: acquiring/releasing `mu`'s write lock,
and single map writes.  A read accessor takes `mu.RLock`, which can be
granted exactly at the program points where no writer holds the lock; the
stores a reader can observe during an operation are therefore the values
of `env` at the operation's unlocked program points (entry, exit, and any
point between statements executed outside `mu.Lock()..mu.Unlock()`). -/

/-- One atomic action of a mutating operation. -/
inductive Act where
  | lockW : Act
  | unlockW : Act
  | mut : (Store → Store) → Act

/-- The stores visible to a reader: the current store at every program
point where the write lock is not held. -/
def obsStates : List Act → Store → Bool → List Store
  | [], s, locked => if locked then [] else [s]
  | a :: rest, s, locked =>
    (if locked then ([] : List Store) else [s]) ++
      match a with
      | .lockW => obsStates rest s true
      | .unlockW => obsStates rest s false
      | .mut f => obsStates rest (f s) locked

/-- Reader-observable stores of an operation started outside the lock. -/
def observables (p : List Act) (init : Store) : List Store :=
  obsStates p init false

/-- `Set` as its atomic actions (part_002 lines 112-116): lock, write,
unlock. -/
def setProg (key value : String) : List Act :=
  [.lockW, .mut (fun st => setStore st key value), .unlockW]

/-- `MustSet` as its atomic actions (part_002 lines 90-99): the
`os.Setenv` call and the conditional Store write both happen under the
lock; `ok` is whether `os.Setenv` succeeded. -/
def mustSetProg (ok : Bool) (key value : String) : List Act :=
  [.lockW, .mut (fun st => if ok then setStore st key value else st), .unlockW]

/-- `loadSystemEnv` as its atomic actions (part_002 lines 22-29): the
whole merge loop runs between `mu.Lock()` and `mu.Unlock()`. -/
def loadSystemEnvProg (sys : List (String × String)) : List Act :=
  .lockW :: (sys.map fun p => Act.mut (fun st => setStore st p.1 p.2)) ++ [.unlockW]

/-- `Reload` as its atomic actions (part_002 lines 33-36): the assignment
`env = map[string]string{}` is executed WITHOUT holding `mu` (line 34),
then `loadSystemEnv()` runs under the lock. -/
def reloadProg (sys : List (String × String)) : List Act :=
  .mut (fun _ => emptyStore) :: loadSystemEnvProg sys

end store

/-! ## Trimming lemmas -/

theorem head?_dropWhileSpace (l : List Char) {c : Char}
    (h : (l.dropWhile (· == ' ')).head? = some c) : c ≠ ' ' := by
  have hm := List.head?_dropWhile_not (· == ' ') l
  rw [h] at hm
  simpa using hm

theorem toList_fastTrim (s : String) :
    (fastTrim s).toList = fastTrimList s.toList := rfl

/-- The last character of a trimmed string is not a space. -/
theorem fastTrim_getLast {s : String} {c : Char}
    (h : (fastTrim s).toList.getLast? = some c) : c ≠ ' ' := by
  rw [toList_fastTrim] at h
  have hX : ((s.toList.dropWhile (· == ' ')).reverse.dropWhile (· == ' ')).head?
      = some c := by
    simpa [fastTrimList] using h
  exact head?_dropWhileSpace _ hX

/-- The first character of a trimmed string is not a space. -/
theorem fastTrim_head {s : String} {c : Char}
    (h : (fastTrim s).toList.head? = some c) : c ≠ ' ' := by
  rw [toList_fastTrim] at h
  have hX : ((s.toList.dropWhile (· == ' ')).reverse.dropWhile (· == ' ')).getLast?
      = some c := by
    simpa [fastTrimList] using h
  obtain ⟨t, ht⟩ :=
    List.dropWhile_suffix (l := (s.toList.dropWhile (· == ' ')).reverse) (· == ' ')
  have hY : ((s.toList.dropWhile (· == ' ')).reverse).getLast? = some c := by
    rw [← ht, List.getLast?_append, hX]; rfl
  have hA : (s.toList.dropWhile (· == ' ')).head? = some c := by
    simpa using hY
  exact head?_dropWhileSpace _ hA

/-! ## Claim C1 -/

/-- Host environment refuting claim C1: key "K" is present but its value
is the empty string. -/
def envC1 : HostEnv := fun k => if k = "K" then some "" else none

/-- C1 (counterexample): with key "K" present and empty, the claim says
`Get "K" "d"` returns the default `"d"`; the code returns `""`. -/
theorem c1_get_empty_counterexample :
    Get envC1 "K" "d" = "" ∧ Get envC1 "K" "d" ≠ "d" := by decide

/-- C1 (amended): `Get` returns the trimmed value whenever the key is
present — even when the value is empty or trims to empty — and the
default only when the key is absent; likewise the Store variant returns
the stored value verbatim whenever the key is in the map.  The
empty-counts-as-absent rule belongs to `IsSet`, not to `Get`. -/
theorem c1_get_amended (env : HostEnv) (st : Store) (key d : String) :
    (∀ v, env key = some v → Get env key d = fastTrim v) ∧
    (env key = none → Get env key d = d) ∧
    (∀ v, st key = some v → store.Get st key d = v) ∧
    (st key = none → store.Get st key d = d) := by
  refine ⟨fun v hv => ?_, fun h => ?_, fun v hv => ?_, fun h => ?_⟩
  · simp [Get, hv]
  · simp [Get, h]
  · simp [store.Get, hv]
  · simp [store.Get, h]

/-- Concrete environments for the C1 witness. -/
def envC1w : HostEnv := fun k => if k = "A" then some " x " else none

def stC1w : Store := fun k => if k = "B" then some " y " else none

theorem c1_get_amended_witness :
    Get envC1w "A" "d" = fastTrim " x " ∧ Get envC1w "Z" "d" = "d" ∧
    store.Get stC1w "B" "d" = " y " ∧ store.Get stC1w "Z" "d" = "d" :=
  ⟨(c1_get_amended envC1w stC1w "A" "d").1 " x " (by decide),
   (c1_get_amended envC1w stC1w "Z" "d").2.1 (by decide),
   (c1_get_amended envC1w stC1w "B" "d").2.2.1 " y " (by decide),
   (c1_get_amended envC1w stC1w "Z" "d").2.2.2 (by decide)⟩

/-! ## Claim C2 -/

/-- Store refuting claim C2: the Store variant keeps values verbatim. -/
def stC2 : Store := fun k => if k = "K" then some " foo " else none

/-- C2 (counterexample): in the Store variant a readable value can carry
leading and trailing ASCII spaces — `Get` returns `" foo "` untrimmed. -/
theorem c2_counterexample :
    store.Get stC2 "K" "d" = " foo " ∧
    (store.Get stC2 "K" "d").toList.head? = some ' ' := by decide

/-- C2 (amended): in the env.go variant, any value read from a present
key has no leading or trailing ASCII spaces, and a key whose value trims
to empty is treated by `IsSet`, `Bool`, `Int` and `Duration` exactly like
an unset key; the Store variant returns values verbatim (see the
counterexample). -/
theorem c2_trimmed_amended (env : HostEnv) (key d : String) (b : Bool)
    (k : IntKind) (di : Int) (pd : String → Int × Option String) (dd : Int) :
    (∀ v, env key = some v → ∀ c,
      ((Get env key d).toList.head? = some c → c ≠ ' ') ∧
      ((Get env key d).toList.getLast? = some c → c ≠ ' ')) ∧
    (∀ v, env key = some v → fastTrim v = "" →
      IsSet env key = false ∧ BoolAcc env key b = b ∧
      intAccessor k env key di = (di, none) ∧
      DurationAcc pd env key dd = (dd, none)) ∧
    (env key = none →
      IsSet env key = false ∧ BoolAcc env key b = b ∧
      intAccessor k env key di = (di, none) ∧
      DurationAcc pd env key dd = (dd, none)) := by
  have htruthy : truthy "" = false := by decide
  refine ⟨fun v hv c => ?_, fun v hv hr => ?_, fun h => ?_⟩
  · have hg : Get env key d = fastTrim v := by simp [Get, hv]
    exact ⟨fun h => fastTrim_head (hg ▸ h), fun h => fastTrim_getLast (hg ▸ h)⟩
  · have hg : Get env key "" = "" := by simp [Get, hv, hr]
    refine ⟨?_, ?_, ?_, ?_⟩
    · simp [IsSet, hg]
    · simp [BoolAcc, hg, htruthy]
    · simp [intAccessor, hg]
    · simp [DurationAcc, hg]
  · have hg : Get env key "" = "" := by simp [Get, h]
    refine ⟨?_, ?_, ?_, ?_⟩
    · simp [IsSet, hg]
    · simp [BoolAcc, hg, htruthy]
    · simp [intAccessor, hg]
    · simp [DurationAcc, hg]

/-- Concrete environment for the C2 witness. -/
def envC2w : HostEnv :=
  fun k => if k = "P" then some " x " else if k = "E" then some " " else none

theorem c2_trimmed_amended_witness :
    ('x' ≠ ' ') ∧
    (IsSet envC2w "E" = false ∧ BoolAcc envC2w "E" true = true ∧
      intAccessor ⟨64, true⟩ envC2w "E" 7 = (7, none) ∧
      DurationAcc (fun _ => (0, some "bad")) envC2w "E" 5 = (5, none)) ∧
    (IsSet envC2w "Z" = false ∧ BoolAcc envC2w "Z" false = false) :=
  ⟨((c2_trimmed_amended envC2w "P" "d" true ⟨64, true⟩ 7
        (fun _ => (0, some "bad")) 5).1 " x " (by decide) 'x').1 (by decide),
   (c2_trimmed_amended envC2w "E" "d" true ⟨64, true⟩ 7
        (fun _ => (0, some "bad")) 5).2.1 " " (by decide) (by decide),
   ⟨((c2_trimmed_amended envC2w "Z" "d" false ⟨64, true⟩ 7
        (fun _ => (0, some "bad")) 5).2.2 (by decide)).1,
    ((c2_trimmed_amended envC2w "Z" "d" false ⟨64, true⟩ 7
        (fun _ => (0, some "bad")) 5).2.2 (by decide)).2.1⟩⟩

/-! ## Claim C3 -/

/-- C3: the truthy set is exactly the six literal strings, a present key
whose trimmed value is truthy yields `true`, and any other value — as
well as an absent or empty key — yields the supplied default. -/
theorem c3_bool_truthy (env : HostEnv) (key : String) (d : Bool) :
    (∀ s, truthy s = true ↔
      (s = "true" ∨ s = "1" ∨ s = "t" ∨ s = "T" ∨ s = "TRUE" ∨ s = "True")) ∧
    (∀ v, env key = some v → truthy (fastTrim v) = true →
      BoolAcc env key d = true) ∧
    (∀ v, env key = some v → truthy (fastTrim v) = false →
      BoolAcc env key d = d) ∧
    (env key = none → BoolAcc env key d = d) := by
  have htruthy : truthy "" = false := by decide
  refine ⟨fun s => ?_, fun v hv ht => ?_, fun v hv ht => ?_, fun h => ?_⟩
  · simp [truthy, Bool.or_eq_true, beq_iff_eq, or_assoc]
  · have hg : Get env key "" = fastTrim v := by simp [Get, hv]
    simp [BoolAcc, hg, ht]
  · have hg : Get env key "" = fastTrim v := by simp [Get, hv]
    simp [BoolAcc, hg, ht]
  · have hg : Get env key "" = "" := by simp [Get, h]
    simp [BoolAcc, hg, htruthy]

/-- Concrete environment for the C3 witness. -/
def envC3 : HostEnv :=
  fun k => if k = "T" then some "T" else if k = "N" then some " no " else none

theorem c3_bool_truthy_witness :
    BoolAcc envC3 "T" false = true ∧ BoolAcc envC3 "N" true = true ∧
    BoolAcc envC3 "X" false = false ∧ truthy "TRUE" = true :=
  ⟨(c3_bool_truthy envC3 "T" false).2.1 "T" (by decide) (by decide),
   (c3_bool_truthy envC3 "N" true).2.2.1 " no " (by decide) (by decide),
   (c3_bool_truthy envC3 "X" false).2.2.2 (by decide),
   ((c3_bool_truthy envC3 "X" false).1 "TRUE").mpr
     (Or.inr (Or.inr (Or.inr (Or.inr (Or.inl rfl)))))⟩

/-! ## Claim C4 -/

/-- The strings on which the Go parser for kind `k` reports no syntax
error: an optional single sign (signed kinds only) followed by a
non-empty run of decimal digits. -/
def wellFormedNum (k : IntKind) (s : List Char) : Bool :=
  if k.signed then
    match s with
    | [] => false
    | c :: rest =>
      if c == '+' || c == '-' then !rest.isEmpty && rest.all Char.isDigit
      else (c :: rest).all Char.isDigit
  else !s.isEmpty && s.all Char.isDigit

/-- The mathematical value of a well-formed literal. -/
def numVal (k : IntKind) (s : List Char) : Int :=
  if k.signed then
    match s with
    | [] => 0
    | c :: rest =>
      if c == '-' then -((digitsVal rest : Nat) : Int)
      else if c == '+' then ((digitsVal rest : Nat) : Int)
      else ((digitsVal (c :: rest) : Nat) : Int)
  else ((digitsVal s : Nat) : Int)

/-- The representable range of kind `k`. -/
def inRange (k : IntKind) (n : Int) : Prop :=
  if k.signed then
    -(((2 ^ (k.bits - 1) : Nat) : Int)) ≤ n ∧ n ≤ ((2 ^ (k.bits - 1) : Nat) : Int) - 1
  else 0 ≤ n ∧ n ≤ ((2 ^ k.bits : Nat) : Int) - 1

instance (k : IntKind) (n : Int) : Decidable (inRange k n) := by
  unfold inRange; infer_instance

theorem goParseUint_digits {l : List Char} (h1 : l ≠ [])
    (h2 : l.all Char.isDigit = true) (b : Nat) :
    goParseUint l b =
      if digitsVal l > 2 ^ b - 1 then (2 ^ b - 1, some .outOfRange)
      else (digitsVal l, none) := by
  simp [goParseUint, h1, h2]

theorem goParseUint_bad {l : List Char}
    (h : ¬(l ≠ [] ∧ l.all Char.isDigit = true)) (b : Nat) :
    goParseUint l b = (0, some .malformed) := by
  by_cases h1 : l = []
  · simp [goParseUint, h1]
  · have h2 : l.all Char.isDigit = false := by
      rcases Bool.eq_false_or_eq_true (l.all Char.isDigit) with h' | h'
      · exact absurd ⟨h1, h'⟩ h
      · exact h'
    simp [goParseUint, h1, h2]

theorem toList_eq_nil {s : String} (h : s.toList = []) : s = "" := by
  cases s with
  | mk data =>
    simp only [String.toList, String.data] at h
    subst h
    rfl

/-- The final range check of `goParseInt`, as a function of the sign and
the (pre-clamp) magnitude. -/
def signedFix (neg : Bool) (N b : Nat) : Int × Option NumErr :=
  let M := if N > 2 ^ b - 1 then 2 ^ b - 1 else N
  if neg = false ∧ 2 ^ (b - 1) ≤ M then
    (((2 ^ (b - 1) - 1 : Nat) : Int), some .outOfRange)
  else if neg = true ∧ 2 ^ (b - 1) < M then
    (-((2 ^ (b - 1) : Nat) : Int), some .outOfRange)
  else (if neg then -(M : Int) else (M : Int), none)

theorem wf_signed_sign {b : Nat} {c : Char} {rest : List Char}
    (hsign : (c == '+' || c == '-') = true)
    (hwf : wellFormedNum ⟨b, true⟩ (c :: rest) = true) :
    rest ≠ [] ∧ rest.all Char.isDigit = true := by
  simpa [wellFormedNum, hsign] using hwf

theorem wf_signed_nosign {b : Nat} {c : Char} {rest : List Char}
    (hsign : (c == '+' || c == '-') = false)
    (hwf : wellFormedNum ⟨b, true⟩ (c :: rest) = true) :
    (c :: rest).all Char.isDigit = true := by
  simpa [wellFormedNum, hsign] using hwf

theorem wf_unsigned {b : Nat} {s : List Char}
    (hwf : wellFormedNum ⟨b, false⟩ s = true) :
    s ≠ [] ∧ s.all Char.isDigit = true := by
  simpa [wellFormedNum] using hwf

theorem goParseInt_eq_signedFix {b : Nat} {c : Char} {rest : List Char}
    (hwf : wellFormedNum ⟨b, true⟩ (c :: rest) = true) :
    goParseInt (c :: rest) b =
      signedFix (c == '-')
        (digitsVal (if c == '+' || c == '-' then rest else c :: rest)) b := by
  by_cases hsign : (c == '+' || c == '-') = true
  · obtain ⟨hne, hdig⟩ := wf_signed_sign hsign hwf
    by_cases hbig : digitsVal rest > 2 ^ b - 1
    · simp [goParseInt, signedFix, hsign, goParseUint_digits hne hdig, hbig]
    · simp [goParseInt, signedFix, hsign, goParseUint_digits hne hdig, hbig]
  · have hsign' : (c == '+' || c == '-') = false := by
      simpa using hsign
    have hdig := wf_signed_nosign hsign' hwf
    by_cases hbig : digitsVal (c :: rest) > 2 ^ b - 1
    · simp [goParseInt, signedFix, hsign', goParseUint_digits (List.cons_ne_nil c rest) hdig, hbig]
    · simp [goParseInt, signedFix, hsign', goParseUint_digits (List.cons_ne_nil c rest) hdig, hbig]

theorem numVal_signed (b : Nat) (c : Char) (rest : List Char) :
    numVal ⟨b, true⟩ (c :: rest) =
      (if c == '-' then
        -((digitsVal (if c == '+' || c == '-' then rest else c :: rest) : Nat) : Int)
      else
        ((digitsVal (if c == '+' || c == '-' then rest else c :: rest) : Nat) : Int)) := by
  by_cases h2 : (c == '-') = true
  · simp [numVal, h2]
  · have h2' : (c == '-') = false := by simpa using h2
    by_cases h1 : (c == '+') = true
    · simp [numVal, h1, h2']
    · have h1' : (c == '+') = false := by simpa using h1
      simp [numVal, h1', h2']

theorem signedFix_range {neg : Bool} {N b : Nat} (h2 : 2 ≤ b)
    (hout : ¬ inRange ⟨b, true⟩ (if neg then -(N : Int) else (N : Int))) :
    (signedFix neg N b).2 = some .outOfRange := by
  have hb1 : b - 1 + 1 = b := by omega
  have hQ : 2 ^ b = 2 ^ (b - 1) + 2 ^ (b - 1) := by
    calc 2 ^ b = 2 ^ (b - 1 + 1) := by rw [hb1]
    _ = 2 ^ (b - 1) * 2 := by rw [pow_succ]
    _ = 2 ^ (b - 1) + 2 ^ (b - 1) := by ring
  have hP2 : 2 ≤ 2 ^ (b - 1) := Nat.one_lt_two_pow_iff.mpr (by omega)
  cases neg with
  | false =>
    have hout' : ¬(-((2 ^ (b - 1) : Nat) : Int) ≤ (N : Int) ∧
        (N : Int) ≤ ((2 ^ (b - 1) : Nat) : Int) - 1) := by
      simpa [inRange] using hout
    rw [not_and_or] at hout'
    have hN : 2 ^ (b - 1) ≤ N := by
      rcases hout' with h | h
      · exfalso; apply h; omega
      · omega
    by_cases hbig : N > 2 ^ b - 1
    · have hM : 2 ^ (b - 1) ≤ 2 ^ b - 1 := by omega
      simp [signedFix, hbig, hM]
    · simp [signedFix, hbig, hN]
  | true =>
    have hout' : ¬(-((2 ^ (b - 1) : Nat) : Int) ≤ -(N : Int) ∧
        -(N : Int) ≤ ((2 ^ (b - 1) : Nat) : Int) - 1) := by
      simpa [inRange] using hout
    rw [not_and_or] at hout'
    have hN : 2 ^ (b - 1) < N := by
      rcases hout' with h | h
      · omega
      · exfalso; apply h; omega
    by_cases hbig : N > 2 ^ b - 1
    · have hM : 2 ^ (b - 1) < 2 ^ b - 1 := by omega
      simp [signedFix, hbig, hM]
    · simp [signedFix, hbig, hN]

theorem signedFix_ok {neg : Bool} {N b : Nat} (h2 : 2 ≤ b)
    (hin : inRange ⟨b, true⟩ (if neg then -(N : Int) else (N : Int))) :
    signedFix neg N b = (if neg then -(N : Int) else (N : Int), none) := by
  have hb1 : b - 1 + 1 = b := by omega
  have hQ : 2 ^ b = 2 ^ (b - 1) + 2 ^ (b - 1) := by
    calc 2 ^ b = 2 ^ (b - 1 + 1) := by rw [hb1]
    _ = 2 ^ (b - 1) * 2 := by rw [pow_succ]
    _ = 2 ^ (b - 1) + 2 ^ (b - 1) := by ring
  have hP2 : 2 ≤ 2 ^ (b - 1) := Nat.one_lt_two_pow_iff.mpr (by omega)
  cases neg with
  | false =>
    have hin' : -((2 ^ (b - 1) : Nat) : Int) ≤ (N : Int) ∧
        (N : Int) ≤ ((2 ^ (b - 1) : Nat) : Int) - 1 := by
      simpa [inRange] using hin
    have hN : N < 2 ^ (b - 1) := by omega
    have hbig : ¬(N > 2 ^ b - 1) := by omega
    simp [signedFix, hbig, Nat.not_le.mpr hN]
  | true =>
    have hin' : -((2 ^ (b - 1) : Nat) : Int) ≤ -(N : Int) ∧
        -(N : Int) ≤ ((2 ^ (b - 1) : Nat) : Int) - 1 := by
      simpa [inRange] using hin
    have hN : N ≤ 2 ^ (b - 1) := by omega
    have hbig : ¬(N > 2 ^ b - 1) := by omega
    simp [signedFix, hbig, Nat.not_lt.mpr hN]

/-- C4: the generic integer accessor returns the default with no error
when the value is empty or absent; value 0 together with a syntax error
when the value is present but not a well-formed base-10 literal for the
requested signedness; the exact value with no error when the literal is
in range for the requested width; and a range error (never a silently
truncated success) when the literal overflows the requested width. -/
theorem c4_int_accessor (k : IntKind) (env : HostEnv) (key : String) (d : Int) :
    (Get env key "" = "" → intAccessor k env key d = (d, none)) ∧
    (∀ v, env key = some v → fastTrim v ≠ "" →
      wellFormedNum k (fastTrim v).toList = false →
      intAccessor k env key d = (0, some .malformed)) ∧
    (∀ v, env key = some v → wellFormedNum k (fastTrim v).toList = true →
      2 ≤ k.bits → ¬ inRange k (numVal k (fastTrim v).toList) →
      (intAccessor k env key d).2 = some .outOfRange) ∧
    (∀ v, env key = some v → wellFormedNum k (fastTrim v).toList = true →
      2 ≤ k.bits → inRange k (numVal k (fastTrim v).toList) →
      intAccessor k env key d = (numVal k (fastTrim v).toList, none)) := by
  have hgetSome : ∀ v, env key = some v → Get env key "" = fastTrim v := by
    intro v hv; simp [Get, hv]
  have hwfne : ∀ v, wellFormedNum k (fastTrim v).toList = true → fastTrim v ≠ "" := by
    intro v hwf heq
    rw [heq] at hwf
    rcases k with ⟨b, sg⟩
    cases sg <;> simp [wellFormedNum, String.toList] at hwf
  refine ⟨fun h => ?_, fun v hv hne hwf => ?_, fun v hv hwf hb hout => ?_,
    fun v hv hwf hb hin => ?_⟩
  · simp [intAccessor, h]
  · have hg := hgetSome v hv
    rcases k with ⟨b, sg⟩
    cases sg with
    | false =>
      have hbad : ¬((fastTrim v).toList ≠ [] ∧
          (fastTrim v).toList.all Char.isDigit = true) := by
        rintro ⟨h1, h2⟩
        have h1d : (fastTrim v).data ≠ [] := h1
        have h2d : (fastTrim v).data.all Char.isDigit = true := h2
        simp [wellFormedNum, h1d, h2d] at hwf
      have hbadd : ¬((fastTrim v).data ≠ [] ∧
          (fastTrim v).data.all Char.isDigit = true) := hbad
      simp [intAccessor, hg, hne, goParseUint_bad hbadd]
    | true =>
      have hsne : (fastTrim v).toList ≠ [] := by
        intro h0; exact hne (toList_eq_nil h0)
      obtain ⟨c, rest, hs⟩ := List.exists_cons_of_ne_nil hsne
      have hsd : (fastTrim v).data = c :: rest := hs
      rw [hs] at hwf
      by_cases hsign : (c == '+' || c == '-') = true
      · have hbad : ¬(rest ≠ [] ∧ rest.all Char.isDigit = true) := by
          rintro ⟨h1, h2⟩
          simp [wellFormedNum, hsign, h1, h2] at hwf
        simp [intAccessor, hg, hne, hsd, goParseInt, hsign, goParseUint_bad hbad]
      · have hsign' : (c == '+' || c == '-') = false := by simpa using hsign
        have hbad : ¬((c :: rest) ≠ [] ∧ (c :: rest).all Char.isDigit = true) := by
          rintro ⟨h1, h2⟩
          simp [wellFormedNum, hsign', h2] at hwf
        simp [intAccessor, hg, hne, hsd, goParseInt, hsign', goParseUint_bad hbad]
  · have hg := hgetSome v hv
    have hne := hwfne v hwf
    rcases k with ⟨b, sg⟩
    cases sg with
    | false =>
      obtain ⟨h1, h2⟩ := wf_unsigned hwf
      have h1d : (fastTrim v).data ≠ [] := h1
      have h2d : (fastTrim v).data.all Char.isDigit = true := h2
      have hout' : ¬((0 : Int) ≤ ((digitsVal (fastTrim v).toList : Nat) : Int) ∧
          ((digitsVal (fastTrim v).toList : Nat) : Int) ≤ ((2 ^ b : Nat) : Int) - 1) := by
        simpa [inRange, numVal] using hout
      have hQ1 : 1 ≤ 2 ^ b := Nat.one_le_two_pow
      have hbig : digitsVal (fastTrim v).toList > 2 ^ b - 1 := by
        rw [not_and_or] at hout'
        rcases hout' with h | h <;> omega
      have hbigd : digitsVal (fastTrim v).data > 2 ^ b - 1 := hbig
      simp [intAccessor, hg, hne, goParseUint_digits h1d h2d, hbigd]
    | true =>
      have hsne : (fastTrim v).toList ≠ [] := by
        intro h0; exact hne (toList_eq_nil h0)
      obtain ⟨c, rest, hs⟩ := List.exists_cons_of_ne_nil hsne
      rw [hs] at hwf hout
      simp only [intAccessor, hg, if_neg hne, hs]
      rw [goParseInt_eq_signedFix hwf]
      apply signedFix_range hb
      rwa [numVal_signed] at hout
  · have hg := hgetSome v hv
    have hne := hwfne v hwf
    rcases k with ⟨b, sg⟩
    cases sg with
    | false =>
      obtain ⟨h1, h2⟩ := wf_unsigned hwf
      have h1d : (fastTrim v).data ≠ [] := h1
      have h2d : (fastTrim v).data.all Char.isDigit = true := h2
      have hin' : (0 : Int) ≤ ((digitsVal (fastTrim v).toList : Nat) : Int) ∧
          ((digitsVal (fastTrim v).toList : Nat) : Int) ≤ ((2 ^ b : Nat) : Int) - 1 := by
        simpa [inRange, numVal] using hin
      have hQ1 : 1 ≤ 2 ^ b := Nat.one_le_two_pow
      have hsmall : ¬(digitsVal (fastTrim v).toList > 2 ^ b - 1) := by omega
      have hsmalld : ¬(digitsVal (fastTrim v).data > 2 ^ b - 1) := hsmall
      simp [intAccessor, hg, hne, goParseUint_digits h1d h2d, hsmalld, numVal]
    | true =>
      have hsne : (fastTrim v).toList ≠ [] := by
        intro h0; exact hne (toList_eq_nil h0)
      obtain ⟨c, rest, hs⟩ := List.exists_cons_of_ne_nil hsne
      rw [hs] at hwf hin ⊢
      simp only [intAccessor, hg, if_neg hne, hs]
      rw [goParseInt_eq_signedFix hwf, numVal_signed]
      exact signedFix_ok hb (by rwa [numVal_signed] at hin)

/-- Concrete environment for the C4 witness. -/
def envC4 : HostEnv := fun k =>
  if k = "M" then some "9223372036854775807"
  else if k = "I" then some "invalid"
  else if k = "O" then some "128"
  else none

theorem c4_int_accessor_witness :
    intAccessor ⟨64, true⟩ envC4 "X" 5 = (5, none) ∧
    intAccessor ⟨8, true⟩ envC4 "I" 7 = (0, some .malformed) ∧
    (intAccessor ⟨8, true⟩ envC4 "O" 0).2 = some .outOfRange ∧
    intAccessor ⟨64, true⟩ envC4 "M" 0 = (9223372036854775807, none) :=
  ⟨(c4_int_accessor ⟨64, true⟩ envC4 "X" 5).1 (by decide),
   (c4_int_accessor ⟨8, true⟩ envC4 "I" 7).2.1 "invalid" (by decide) (by decide)
     (by decide),
   (c4_int_accessor ⟨8, true⟩ envC4 "O" 0).2.2.1 "128" (by decide) (by decide)
     (by decide) (by decide),
   by
     have h := (c4_int_accessor ⟨64, true⟩ envC4 "M" 0).2.2.2
       "9223372036854775807" (by decide) (by decide) (by decide) (by decide)
     rw [h]
     decide⟩

/-! ## Claim C5 -/

theorem loadList_fail (fs : FileSys) (bad e : String) (hbad : fs bad = .error e)
    (post : List String) :
    ∀ (pre : List String) (env : HostEnv), (∀ f ∈ pre, ∃ m, fs f = .ok m) →
    loadList fs (pre ++ bad :: post) env =
      (applyFiles fs pre env, some ("failed to read file " ++ bad ++ ": " ++ e)) := by
  intro pre
  induction pre with
  | nil =>
    intro env _
    simp [loadList, loadFile, hbad, applyFiles]
  | cons f pre ih =>
    intro env hok
    obtain ⟨m, hm⟩ := hok f (by simp)
    have hrec := ih (loadMerge env m false) (fun g hg => hok g (by simp [hg]))
    simp only [List.cons_append, loadList, loadFile, hm, applyFiles,
      List.foldl_cons] at hrec ⊢
    exact hrec

/-- C5: `Load` processes the files strictly in the given order and is
fail-fast — at the first file whose read/parse fails it returns that
file's wrapped error, keeps everything the earlier files merged, and
never applies the failing or any later file; called with no filenames it
loads exactly the single default ".env". -/
theorem c5_load_fail_fast (fs : FileSys) (env : HostEnv) (pre : List String)
    (bad e : String) (post : List String)
    (hok : ∀ f ∈ pre, ∃ m, fs f = .ok m) (hbad : fs bad = .error e) :
    Load fs (pre ++ bad :: post) env =
      (applyFiles fs pre env,
        some ("failed to read file " ++ bad ++ ": " ++ e)) ∧
    Load fs [] env = Load fs [".env"] env := by
  constructor
  · have hne : pre ++ bad :: post ≠ [] := by simp
    rw [Load, filenamesOrDefault, if_neg hne]
    exact loadList_fail fs bad e hbad post pre env hok
  · simp [Load, filenamesOrDefault]

/-- The empty host environment. -/
def envEmpty : HostEnv := fun _ => none

/-- Concrete file system for the C5 witness: "a.env" parses, "bad.env"
fails to open, "c.env" would parse but must never be reached. -/
def fsC5 : FileSys := fun f =>
  if f = "a.env" then .ok [("A", "1")]
  else if f = "bad.env" then .error "open failed"
  else if f = "c.env" then .ok [("C", "3")]
  else .error "no such file"

theorem c5_load_fail_fast_witness :
    (Load fsC5 ["a.env", "bad.env", "c.env"] envEmpty).2 =
      some "failed to read file bad.env: open failed" ∧
    (Load fsC5 ["a.env", "bad.env", "c.env"] envEmpty).1 "A" = some "1" ∧
    (Load fsC5 ["a.env", "bad.env", "c.env"] envEmpty).1 "C" = none ∧
    Load fsC5 [] envEmpty = Load fsC5 [".env"] envEmpty := by
  have h := c5_load_fail_fast fsC5 envEmpty ["a.env"] "bad.env" "open failed"
    ["c.env"] (by intro f hf; simp at hf; subst hf; exact ⟨[("A", "1")], rfl⟩)
    rfl
  have h1 : (["a.env"] ++ "bad.env" :: ["c.env"]) = ["a.env", "bad.env", "c.env"] := rfl
  rw [h1] at h
  refine ⟨?_, ?_, ?_, h.2⟩
  · rw [h.1]
    rfl
  · rw [h.1]; decide
  · rw [h.1]; decide

/-! ## Claim C6 -/

theorem merge_keeps (env : HostEnv) (ov : Bool) (key : String)
    (hcond : ((env key).isNone || ov) = false) :
    ∀ (pairs : List (String × String)) (acc : HostEnv),
    (pairs.foldl
      (fun a p => if (env p.1).isNone || ov then setEnv a p.1 p.2 else a)
      acc) key = acc key := by
  intro pairs
  induction pairs with
  | nil => intro acc; rfl
  | cons p ps ih =>
    intro acc
    rw [List.foldl_cons, ih]
    by_cases hk : p.1 = key
    · rw [hk, if_neg (by simp [hcond])]
    · by_cases hc : ((env p.1).isNone || ov) = true
      · simp only [hc, if_true, setEnv]
        rw [if_neg (fun h => hk h.symm)]
      · simp only [Bool.not_eq_true] at hc
        rw [if_neg (by simp [hc])]

theorem merge_skip (env : HostEnv) (ov : Bool) (key : String) :
    ∀ (pairs : List (String × String)), key ∉ pairs.map Prod.fst →
    ∀ acc : HostEnv,
    (pairs.foldl
      (fun a p => if (env p.1).isNone || ov then setEnv a p.1 p.2 else a)
      acc) key = acc key := by
  intro pairs
  induction pairs with
  | nil => intro _ acc; rfl
  | cons p ps ih =>
    intro hnot acc
    have hk : p.1 ≠ key := fun h => hnot (by simp [h])
    have hns : key ∉ ps.map Prod.fst := fun h => hnot (by simp [h])
    rw [List.foldl_cons, ih hns]
    by_cases hc : ((env p.1).isNone || ov) = true
    · simp only [hc, if_true, setEnv]
      rw [if_neg (fun h => hk h.symm)]
    · simp only [Bool.not_eq_true] at hc
      rw [if_neg (by simp [hc])]

theorem merge_mem (env : HostEnv) (ov : Bool) (key v : String)
    (hcond : ((env key).isNone || ov) = true) :
    ∀ (pairs : List (String × String)), (pairs.map Prod.fst).Nodup →
    (key, v) ∈ pairs →
    ∀ acc : HostEnv,
    (pairs.foldl
      (fun a p => if (env p.1).isNone || ov then setEnv a p.1 p.2 else a)
      acc) key = some v := by
  intro pairs
  induction pairs with
  | nil => intro _ hmem; exact absurd hmem (List.not_mem_nil _)
  | cons p ps ih =>
    intro hnd hmem acc
    rw [List.map_cons, List.nodup_cons] at hnd
    rw [List.foldl_cons]
    rcases List.mem_cons.mp hmem with heq | hmem'
    · subst heq
      rw [merge_skip env ov key ps (by simpa using hnd.1)]
      simp only [hcond, if_true, setEnv, if_pos rfl]
    · exact ih hnd.2 hmem' _

/-- C6: the merge step of `loadFile` — in non-override mode a key already
present in the host environment keeps its prior value; a key absent from
the host environment gets the file's value; in override mode every parsed
key is unconditionally set. -/
theorem c6_merge_precedence (env : HostEnv) (pairs : List (String × String))
    (key : String) :
    ((env key).isSome = true → loadMerge env pairs false key = env key) ∧
    (∀ v, (env key).isNone = true → (pairs.map Prod.fst).Nodup →
      (key, v) ∈ pairs → loadMerge env pairs false key = some v) ∧
    (∀ v, (pairs.map Prod.fst).Nodup → (key, v) ∈ pairs →
      loadMerge env pairs true key = some v) := by
  refine ⟨fun h => ?_, fun v hno hnd hmem => ?_, fun v hnd hmem => ?_⟩
  · have hcond : ((env key).isNone || false) = false := by
      simp [Option.isNone_iff_eq_none]
      rcases henv : env key with _ | w
      · rw [henv] at h; simp at h
      · simp
    exact merge_keeps env false key hcond pairs env
  · exact merge_mem env false key v (by simp [hno]) pairs hnd hmem env
  · exact merge_mem env true key v (by simp) pairs hnd hmem env

/-- Concrete data for the C6 witness. -/
def envC6 : HostEnv := fun k => if k = "A" then some "old" else none

def pairsC6 : List (String × String) := [("A", "new"), ("B", "b")]

theorem c6_merge_precedence_witness :
    loadMerge envC6 pairsC6 false "A" = some "old" ∧
    loadMerge envC6 pairsC6 false "B" = some "b" ∧
    loadMerge envC6 pairsC6 true "A" = some "new" :=
  ⟨by rw [(c6_merge_precedence envC6 pairsC6 "A").1 (by decide)]; decide,
   (c6_merge_precedence envC6 pairsC6 "B").2.1 "b" (by decide) (by decide)
     (by decide),
   (c6_merge_precedence envC6 pairsC6 "A").2.2 "new" (by decide) (by decide)⟩

/-! ## Claim C7 -/

theorem replaceAll_append (p : Char) (r : List Char) (xs ys : List Char) :
    replaceAll p r (xs ++ ys) = replaceAll p r xs ++ replaceAll p r ys := by
  induction xs with
  | nil => rfl
  | cons c cs ih =>
    simp only [List.cons_append, replaceAll, List.append_eq]
    by_cases h : c = p
    · rw [if_pos h, if_pos h, ih, List.append_assoc]
    · rw [if_neg h, if_neg h, ih, List.cons_append]

theorem doubleQuoteEscapeList_append (xs ys : List Char) :
    doubleQuoteEscapeList (xs ++ ys) =
      doubleQuoteEscapeList xs ++ doubleQuoteEscapeList ys := by
  simp [doubleQuoteEscapeList, doubleQuoteSpecialChars, replaceAll_append]

theorem doubleQuoteEscapeList_single (c : Char) :
    doubleQuoteEscapeList [c] = escapeSpecChar c := by
  by_cases h1 : c = '\\'
  · subst h1; decide
  by_cases h2 : c = '\n'
  · subst h2; decide
  by_cases h3 : c = '\r'
  · subst h3; decide
  by_cases h4 : c = '"'
  · subst h4; decide
  by_cases h5 : c = '!'
  · subst h5; decide
  by_cases h6 : c = '$'
  · subst h6; decide
  by_cases h7 : c = '`'
  · subst h7; decide
  simp [doubleQuoteEscapeList, doubleQuoteSpecialChars, replaceAll,
    escapeSpecChar, h1, h2, h3, h4, h5, h6, h7]

/-- The sequential global replacements of `doubleQuoteEscape` act as one
per-character escape pass: characters introduced by a replacement are
never re-escaped by another. -/
theorem doubleQuoteEscapeList_eq_escapeSpec (l : List Char) :
    doubleQuoteEscapeList l = escapeSpec l := by
  induction l with
  | nil => decide
  | cons c cs ih =>
    have h := doubleQuoteEscapeList_append [c] cs
    simp only [List.singleton_append] at h
    rw [h, doubleQuoteEscapeList_single, ih]
    rfl

/-- C7: a `Marshal` line for a trimmed value is the unquoted integer form
exactly when `strconv.Atoi` succeeds, and otherwise the quoted form whose
body escapes each special character once (per-character map `escapeSpec`,
so no double escaping), in the source's substitution order. -/
theorem c7_marshal_line (k v : String) :
    ((atoi (fastTrim v)).2 = none →
      marshalLine k (fastTrim v) = k ++ "=" ++ toString (atoi (fastTrim v)).1) ∧
    ((atoi (fastTrim v)).2 ≠ none →
      marshalLine k (fastTrim v) =
        k ++ "=\"" ++ String.mk (escapeSpec (fastTrim v).toList) ++ "\"") := by
  constructor
  · intro h
    rcases he : atoi (fastTrim v) with ⟨d, e⟩
    rw [he] at h
    simp only at h
    subst h
    simp [marshalLine, he]
  · intro h
    rcases he : atoi (fastTrim v) with ⟨d, e⟩
    rw [he] at h
    simp only at h
    cases e with
    | none => exact absurd rfl h
    | some err =>
      simp only [marshalLine, he]
      have : doubleQuoteEscape (fastTrim v) =
          String.mk (escapeSpec (fastTrim v).toList) := by
        unfold doubleQuoteEscape
        rw [doubleQuoteEscapeList_eq_escapeSpec]
      rw [this]

theorem c7_marshal_line_witness :
    marshalLine "A" (fastTrim "42") = "A=42" ∧
    marshalLine "B" (fastTrim "x\"y\\z") = "B=\"x\\\"y\\\\z\"" := by
  constructor
  · have h := (c7_marshal_line "A" "42").1 (by decide)
    rw [h]; decide
  · have h := (c7_marshal_line "B" "x\"y\\z").2 (by decide)
    rw [h]; decide

/-! ## Claim C8 -/

/-- C8: `Marshal` output depends only on the key/value multiset the
`os.Environ` snapshot enumerates, not on its order — the rendered lines
are sorted before joining, so permuted environments marshal equally. -/
theorem c8_marshal_deterministic (l1 l2 : List (String × String))
    (h : l1.Perm l2) : Marshal l1 = Marshal l2 := by
  unfold Marshal
  congr 1
  exact List.eq_of_perm_of_sorted
    (((List.perm_insertionSort _ _).trans (h.map _)).trans
      (List.perm_insertionSort _ _).symm)
    (List.sorted_insertionSort _ _)
    (List.sorted_insertionSort _ _)

theorem c8_marshal_deterministic_witness :
    Marshal [("B", "2"), ("A", "x")] = Marshal [("A", "x"), ("B", "2")] :=
  c8_marshal_deterministic _ _ (List.Perm.swap _ _ _)

/-! ## Claim C9 -/

theorem obsStates_muts (sys : List (String × String)) :
    ∀ st : Store,
    store.obsStates
      ((sys.map fun p => store.Act.mut (fun s => store.setStore s p.1 p.2)) ++
        [.unlockW]) st true = [store.applyPairs sys st] := by
  induction sys with
  | nil => intro st; rfl
  | cons p ps ih =>
    intro st
    simp only [List.map_cons, List.cons_append, store.obsStates, if_pos,
      List.nil_append]
    have := ih (store.setStore st p.1 p.2)
    simp only [store.applyPairs, List.foldl_cons] at this ⊢
    exact this

theorem observables_loadSystemEnv (sys : List (String × String)) (pre : Store) :
    store.observables (store.loadSystemEnvProg sys) pre =
      [pre, store.applyPairs sys pre] := by
  simp only [store.observables, store.loadSystemEnvProg, store.obsStates,
    List.append_eq]
  rw [obsStates_muts sys pre]
  rfl

theorem observables_set (k v : String) (pre : Store) :
    store.observables (store.setProg k v) pre =
      [pre, store.setStore pre k v] := rfl

theorem observables_reload (sys : List (String × String)) (pre : Store) :
    store.observables (store.reloadProg sys) pre =
      [pre, store.emptyStore, store.applyPairs sys store.emptyStore] := by
  simp only [store.observables, store.reloadProg, store.obsStates,
    store.loadSystemEnvProg, List.append_eq]
  rw [obsStates_muts sys store.emptyStore]
  rfl

/-- The pre-reload store of the C9 scenario: "K" is mapped to "v", and
the host environment (`os.Environ`) also holds "K=v", so the pre- and
post-reload snapshots agree. -/
def preC9 : Store := fun k => if k = "K" then some "v" else none

/-- C9 (refutation at the failing input): `Reload` clears the map
(part_002 line 34) before `loadSystemEnv` takes `mu.Lock()`, so a reader
running between the two observes the empty map: `Get "K" "d"` yields the
default "d" there, although both the complete pre-reload and the complete
post-reload snapshots yield "v".  `Set`, by contrast, mutates entirely
under the lock, so its only reader-observable states are pre and post. -/
theorem c9_reload_torn_read :
    store.observables (store.reloadProg [("K", "v")]) preC9 =
      [preC9, store.emptyStore, store.applyPairs [("K", "v")] store.emptyStore] ∧
    store.Get preC9 "K" "d" = "v" ∧
    store.Get (store.applyPairs [("K", "v")] store.emptyStore) "K" "d" = "v" ∧
    store.Get store.emptyStore "K" "d" = "d" ∧
    store.observables (store.setProg "K" "w") preC9 =
      [preC9, store.setStore preC9 "K" "w"] :=
  ⟨observables_reload [("K", "v")] preC9, by decide, by decide, rfl,
   observables_set "K" "w" preC9⟩

/-! ## Claim C10 -/

/-- C10: `MustSet` writes the Store only after the `os.Setenv` host write
succeeds — on a host failure the error is returned and the Store mapping
is completely unchanged; on success the key is stored and no error is
returned. -/
theorem c10_mustSet_atomic (st : Store) (key value e : String) :
    (store.MustSet (.error e) st key value).1 = st ∧
    (store.MustSet (.error e) st key value).2 = some e ∧
    store.MustSet (.ok ()) st key value =
      (store.setStore st key value, none) :=
  ⟨rfl, rfl, rfl⟩

end goenv
